import Mathlib

/-!
Shallow embedding of the similarity-matching core of the
`visual-product-matcher` repository (`app.py`, `scripts/build_index.py`).

Fingerprints are modelled as the flattened boolean arrays used by the
`imagehash` library: a 16-character hex string decodes to a list of 64
booleans, most significant bit first.  Hamming distance is the count of
positions at which two equal-length bit lists differ, matching
`ImageHash.__sub__` (which raises on shape mismatch, modelled as `none`).
Python integers are modelled as `Int`; the float expression
`100 * (1 - dist / 64.0)` in `score_from_distance` is exact in binary
floating point (its value is `25 * (64 - dist) / 16`, whose numerator is
small and whose denominator is a power of two), and Python's `round`
rounds ties to even, so the function is embedded as exact integer
arithmetic with round-half-to-even.
-/

/-- Value of one hex digit, as accepted by Python's `int(s, 16)` for a plain
digit character (`0`-`9`, `a`-`f`, `A`-`F`); `none` for any other character. -/
def hexDigitVal (c : Char) : Option Nat :=
  if 48 ≤ c.toNat ∧ c.toNat ≤ 57 then some (c.toNat - 48)
  else if 97 ≤ c.toNat ∧ c.toNat ≤ 102 then some (c.toNat - 87)
  else if 65 ≤ c.toNat ∧ c.toNat ≤ 70 then some (c.toNat - 55)
  else none

/-- Fold a list of hex digits into a number; `none` if any character is not a
hex digit.  Models the core of `int(hexstr, 16)`. -/
def parseHexCore (l : List Char) : Option Nat :=
  l.foldl (fun acc c => acc.bind fun a => (hexDigitVal c).map fun d => 16 * a + d) (some 0)

/-- `int(hexstr, 16)`: fails on the empty string and on any non-hex-digit
character. -/
def parseHexNat (l : List Char) : Option Nat :=
  if l.isEmpty then none else parseHexCore l

/-- Lowercase hex digit character for a value `0`-`15`
(as produced by Python's `'{:x}'` format). -/
def hexCharOf (d : Nat) : Char :=
  Char.ofNat (if d < 10 then 48 + d else 87 + d)

/-- `w` hex characters of `v`, most significant first, zero-padded — the
result of `'{:0>{width}x}'.format(v, width=w)` for `v < 16^w`. -/
def natToHexChars : Nat → Nat → List Char
  | 0, _ => []
  | w + 1, v => natToHexChars w (v / 16) ++ [hexCharOf (v % 16)]

/-- `w` bits of `v`, most significant first — the boolean array obtained from
`'{:0>{width}b}'.format(v, width=w)` for `v < 2^w`. -/
def natToBits : Nat → Nat → List Bool
  | 0, _ => []
  | w + 1, v => natToBits w (v / 2) ++ [decide (v % 2 = 1)]

/-- The number whose binary digits (most significant first) are the given
bits; models `int(bit_string, 2)`. -/
def bitsToNat (l : List Bool) : Nat :=
  l.foldl (fun a b => 2 * a + b.toNat) 0

/-- Integer square root (largest `k` with `k * k ≤ m`), by linear scan; a
kernel-reducible stand-in for `int(numpy.sqrt(m))` at the small sizes in
play. -/
def natSqrtLin (m : Nat) : Nat :=
  (List.range (m + 1)).foldl (fun acc k => if k * k ≤ m then k else acc) 0

/-- `imagehash.hex_to_hash` on the character list of the string
(`s.length` is `s.data.length`): `hash_size = int(sqrt(len(hexstr)*4))`
must square back to `len(hexstr)*4`, the string must parse as hex, and the
result is the flattened `hash_size * hash_size` boolean array of the value.
Any failure (bad length or malformed hex) raises in Python; modelled as
`none`. -/
def hexToHashChars (l : List Char) : Option (List Bool) :=
  if natSqrtLin (l.length * 4) * natSqrtLin (l.length * 4) = l.length * 4 then
    match parseHexNat l with
    | some v => some (natToBits (natSqrtLin (l.length * 4) * natSqrtLin (l.length * 4)) v)
    | none => none
  else none

def hex_to_hash (s : String) : Option (List Bool) :=
  hexToHashChars s.data

/-- `str(ImageHash)` via `_binary_array_to_hex`: the bits are read as a
binary number and formatted as zero-padded lowercase hex of width
`ceil(len/4)` (16 characters for 64 bits). -/
def encodeHash (bits : List Bool) : String :=
  ⟨natToHexChars ((bits.length + 3) / 4) (bitsToNat bits)⟩

/-- `ImageHash.__sub__`: Hamming distance of the two flattened boolean
arrays; raises (modelled `none`) when the shapes differ. -/
def imageHashSub (a b : List Bool) : Option Nat :=
  if a.length = b.length then
    some ((List.zipWith (fun x y => x != y) a b).count true)
  else none

/-- Round-half-to-even of `m / 16` (the value of Python's `round` on the
exact float `m / 16.0`). -/
def roundHalfEven16 (m : Int) : Int :=
  let q := m.ediv 16
  let r := m.emod 16
  if r < 8 then q else if 8 < r then q + 1 else if Even q then q else q + 1

/-- `score_from_distance` (app.py:80-82):
`max(0, min(100, int(round(100 * (1 - dist / 64.0)))))`.  The float value
`100 * (1 - dist / 64.0)` is exactly `25 * (64 - dist) / 16`, and Python's
`round` is round-half-to-even. -/
def score_from_distance (dist : Int) : Int :=
  max 0 (min 100 (roundHalfEven16 (25 * (64 - dist))))

/-- The `Product` dataclass (app.py:20-27); `price` (a Python float read
from a sqlite REAL column) is modelled as a rational, which the matcher
never inspects. -/
structure Product where
  id : Int
  name : String
  category : String
  image_url : String
  price : Rat
  phash : String
deriving DecidableEq, Repr

/-- One iteration of the scan loop of `find_similar` (app.py:88-94): decode
the stored fingerprint, subtract, score; any failure (the `except` clause)
drops the item. -/
def scoreItem (query_hash : List Bool) (p : Product) : Option (Product × Int) :=
  match hex_to_hash p.phash with
  | none => none
  | some ih =>
    match imageHashSub query_hash ih with
    | none => none
    | some dist => some (p, score_from_distance dist)

/-- The sort order of `scored.sort(key=lambda x: x[1], reverse=True)`:
by score, descending. -/
def scoreRel (a b : Product × Int) : Prop := b.2 ≤ a.2

instance : DecidableRel scoreRel := fun a b => inferInstanceAs (Decidable (b.2 ≤ a.2))

instance : IsTotal (Product × Int) scoreRel := ⟨fun a b => le_total b.2 a.2⟩

instance : IsTrans (Product × Int) scoreRel := ⟨fun _ _ _ h h2 => le_trans h2 h⟩

/-- Python's `list.sort` is a stable sort; insertion sort with `scoreRel`
(which keeps an element before every later element it ties with) computes
the same list. -/
def sortByScoreDesc (l : List (Product × Int)) : List (Product × Int) :=
  List.insertionSort scoreRel l

/-- Python's `scored[:k]` slice: first `k` elements for `k ≥ 0`; for `k < 0`
the elements up to `len + k` (clamped at zero). -/
def pySliceTo (k : Int) (l : List α) : List α :=
  if 0 ≤ k then l.take k.toNat else l.take ((l.length : Int) + k).toNat

/-- `find_similar` (app.py:85-96).  The query fingerprint is decoded outside
the per-item `try`, so a malformed query aborts the whole call (`none`);
each catalog item is scored by `scoreItem` with failures skipped, the
survivors are stable-sorted by score descending and the list is sliced to
`max_results`. -/
def find_similar (phash_hex : String) (products : List Product)
    (max_results : Int := 24) : Option (List (Product × Int)) :=
  match hex_to_hash phash_hex with
  | none => none
  | some query_hash =>
    let scored := products.filterMap (scoreItem query_hash)
    some (pySliceTo max_results (sortByScoreDesc scored))

/-- The result-assembly slice of the `search` handler (app.py:148-151):
run `find_similar` with the raw `max_results`, then apply the server-side
threshold filter `s >= min_score` with the raw `min_score`. -/
def search_results (min_score max_results : Int) (phash_hex : String)
    (products : List Product) : Option (List (Product × Int)) :=
  (find_similar phash_hex products max_results).map
    (List.filter fun x => decide (min_score ≤ x.2))

/-- Outcome of `requests.get(url, timeout=...)`: a response carrying an HTTP
status and a body, or a raised exception (connection error / timeout),
modelled abstractly over the body type. -/
inductive HttpResult (β : Type) where
  | response (status : Nat) (body : β)
  | failure
deriving DecidableEq

/-- `compute_phash_from_url` (app.py:70-77), with the external collaborators
(`requests.get`, `Image.open`, `imagehash.phash` after RGB conversion)
passed as parameters: one fetch with the given timeout (default 8);
`raise_for_status` raises for status 400-599; any exception anywhere in the
body is caught and becomes `None`. -/
def compute_phash_from_url {β γ : Type} (fetchFn : String → Int → HttpResult β)
    (openImage : β → Option γ) (phashPil : γ → List Bool)
    (url : String) (timeout : Int := 8) : Option (List Bool) :=
  match fetchFn url timeout with
  | HttpResult.failure => none
  | HttpResult.response status body =>
    if 400 ≤ status ∧ status < 600 then none
    else
      match openImage body with
      | none => none
      | some img => some (phashPil img)

/-- The two-item catalog of the spec scenario: id 1 stores the all-zero
fingerprint, id 2 the all-one fingerprint. -/
def prodZero : Product :=
  ⟨1, "Zero", "Cat", "http://example/1.jpg", 10, "0000000000000000"⟩

def prodOnes : Product :=
  ⟨2, "Ones", "Cat", "http://example/2.jpg", 20, "ffffffffffffffff"⟩

/-- A catalog entry whose stored fingerprint is not hexadecimal. -/
def prodBad : Product :=
  ⟨3, "Bad", "Cat", "http://example/3.jpg", 30, "zzzzzzzzzzzzzzzz"⟩

/-- The spec formula `round(100 * (1 - distance / bitWidth))` clamped to
`[0, 100]`, reading `round` as conventional rounding (Mathlib's `round`,
which sends halves up). -/
def scoreSpecRoundHalfUp (dist : Int) : Int :=
  max 0 (min 100 (round ((100 : ℚ) * (1 - (dist : ℚ) / 64))))

/-- Round-half-to-even on the rationals: the nearest integer, with exact
halves sent to the even neighbour (the rounding Python's `round`
performs). -/
def roundHalfEvenQ (x : ℚ) : Int :=
  if Int.fract x < 1 / 2 then ⌊x⌋
  else if 1 / 2 < Int.fract x then ⌊x⌋ + 1
  else if Even ⌊x⌋ then ⌊x⌋ else ⌊x⌋ + 1

/-- The spec formula with `round` read as round-half-to-even. -/
def scoreSpecRoundHalfEven (dist : Int) : Int :=
  max 0 (min 100 (roundHalfEvenQ ((100 : ℚ) * (1 - (dist : ℚ) / 64))))

-- quick sanity checks of the embedding on concrete values
example : hex_to_hash "0000000000000000" = some (List.replicate 64 false) := by decide
example : score_from_distance 0 = 100 := by decide
example : score_from_distance 64 = 0 := by decide
example : score_from_distance 24 = 62 := by decide
example : find_similar "0000000000000000" [prodZero, prodOnes] 2 =
    some [(prodZero, 100), (prodOnes, 0)] := by decide
example : hex_to_hash "zzzzzzzzzzzzzzzz" = none := by decide
example : find_similar "0000000000000000" [prodZero, prodBad, prodOnes] 24 =
    some [(prodZero, 100), (prodOnes, 0)] := by decide
example : search_results 80 2 "0000000000000000" [prodZero, prodOnes] =
    some [(prodZero, 100)] := by decide

lemma floor_intCast_div_sixteen (q r : Int) (h0 : 0 ≤ r) (h16 : r < 16) :
    ⌊((q : ℚ) + (r : ℚ) / 16)⌋ = q := by
  rw [Int.floor_int_add]
  have h1 : ⌊((r : ℚ) / 16)⌋ = 0 := by
    rw [Int.floor_eq_zero_iff]
    constructor
    · positivity
    · rw [div_lt_one (by norm_num)]
      exact_mod_cast h16
  omega

lemma fract_intCast_div_sixteen (q r : Int) (h0 : 0 ≤ r) (h16 : r < 16) :
    Int.fract ((q : ℚ) + (r : ℚ) / 16) = (r : ℚ) / 16 := by
  rw [Int.fract_int_add, Int.fract_eq_self]
  constructor
  · positivity
  · rw [div_lt_one (by norm_num)]
    exact_mod_cast h16

/-- The integer-arithmetic rounding used in the embedding of
`score_from_distance` agrees with round-half-to-even of the exact rational
`m / 16`. -/
lemma roundHalfEvenQ_div_sixteen (m : Int) :
    roundHalfEvenQ ((m : ℚ) / 16) = roundHalfEven16 m := by
  have hdecomp : m = 16 * m.ediv 16 + m.emod 16 := (Int.ediv_add_emod m 16).symm
  have h0 : 0 ≤ m.emod 16 := Int.emod_nonneg m (by norm_num)
  have h16 : m.emod 16 < 16 := Int.emod_lt_of_pos m (by norm_num)
  have hx : (m : ℚ) / 16 = (m.ediv 16 : ℚ) + (m.emod 16 : ℚ) / 16 := by
    have hint : (m : ℚ) = 16 * (m.ediv 16 : ℚ) + (m.emod 16 : ℚ) := by
      exact_mod_cast hdecomp
    rw [hint]; ring
  have hfloor : ⌊((m : ℚ) / 16)⌋ = m.ediv 16 := by
    rw [hx]; exact floor_intCast_div_sixteen _ _ h0 h16
  have hfract : Int.fract ((m : ℚ) / 16) = (m.emod 16 : ℚ) / 16 := by
    rw [hx]; exact fract_intCast_div_sixteen _ _ h0 h16
  have hlt : (Int.fract ((m : ℚ) / 16) < 1 / 2) ↔ m.emod 16 < 8 := by
    rw [hfract, div_lt_div_iff₀ (by norm_num) (by norm_num)]
    constructor
    · intro h; exact_mod_cast (by linarith : (m.emod 16 : ℚ) < 8)
    · intro h; have : (m.emod 16 : ℚ) < 8 := by exact_mod_cast h
      linarith
  have hgt : (1 / 2 < Int.fract ((m : ℚ) / 16)) ↔ 8 < m.emod 16 := by
    rw [hfract, div_lt_div_iff₀ (by norm_num) (by norm_num)]
    constructor
    · intro h; exact_mod_cast (by linarith : (8 : ℚ) < (m.emod 16 : ℚ))
    · intro h; have : (8 : ℚ) < (m.emod 16 : ℚ) := by exact_mod_cast h
      linarith
  unfold roundHalfEvenQ roundHalfEven16
  rw [hfloor]
  by_cases hc1 : m.emod 16 < 8
  · rw [if_pos (hlt.mpr hc1), if_pos hc1]
  · rw [if_neg (fun h => hc1 (hlt.mp h)), if_neg hc1]
    by_cases hc2 : 8 < m.emod 16
    · rw [if_pos (hgt.mpr hc2), if_pos hc2]
    · rw [if_neg (fun h => hc2 (hgt.mp h)), if_neg hc2]

/-- The argument of `round` in the spec formula is exactly the rational
`25 * (64 - d) / 16` fed (as an exact float) to Python's `round`. -/
lemma specArg_eq (d : Int) :
    (100 : ℚ) * (1 - (d : ℚ) / 64) = ((25 * (64 - d) : Int) : ℚ) / 16 := by
  push_cast
  ring

lemma score_eq_specHalfEven (d : Int) :
    score_from_distance d = scoreSpecRoundHalfEven d := by
  unfold score_from_distance scoreSpecRoundHalfEven
  rw [specArg_eq, roundHalfEvenQ_div_sixteen]

lemma specHalfUp_at24 : scoreSpecRoundHalfUp 24 = 63 := by
  unfold scoreSpecRoundHalfUp
  rw [show (100 : ℚ) * (1 - ((24 : Int) : ℚ) / 64) = 125 / 2 by push_cast; ring]
  rw [round_eq, show (125 / 2 + 1 / 2 : ℚ) = ((63 : Int) : ℚ) by push_cast; ring]
  rw [Int.floor_intCast]
  decide

example : scoreSpecRoundHalfEven 24 = 62 := by
  rw [← score_eq_specHalfEven]; decide

lemma roundHalfEven16_step (m : Int) : roundHalfEven16 m ≤ roundHalfEven16 (m + 1) := by
  have e1 : 16 * m.ediv 16 + m.emod 16 = m := Int.ediv_add_emod m 16
  have e2 : 16 * (m + 1).ediv 16 + (m + 1).emod 16 = m + 1 := Int.ediv_add_emod (m + 1) 16
  have b1 : 0 ≤ m.emod 16 := Int.emod_nonneg m (by norm_num)
  have b2 : m.emod 16 < 16 := Int.emod_lt_of_pos m (by norm_num)
  have b3 : 0 ≤ (m + 1).emod 16 := Int.emod_nonneg _ (by norm_num)
  have b4 : (m + 1).emod 16 < 16 := Int.emod_lt_of_pos _ (by norm_num)
  simp only [roundHalfEven16, Int.even_iff]
  split_ifs <;> omega

lemma roundHalfEven16_mono {m n : Int} (h : m ≤ n) :
    roundHalfEven16 m ≤ roundHalfEven16 n :=
  @Int.le_induction (fun x => roundHalfEven16 m ≤ roundHalfEven16 x) m (le_refl _)
    (fun k _ ih => le_trans ih (roundHalfEven16_step k)) n h

lemma score_from_distance_antitone {d1 d2 : Int} (h : d1 ≤ d2) :
    score_from_distance d2 ≤ score_from_distance d1 := by
  unfold score_from_distance
  have harg : 25 * (64 - d2) ≤ 25 * (64 - d1) := by omega
  have := roundHalfEven16_mono harg
  omega

lemma score_from_distance_le_100 (d : Int) : score_from_distance d ≤ 100 := by
  unfold score_from_distance
  omega

lemma score_from_distance_nonneg (d : Int) : 0 ≤ score_from_distance d := by
  unfold score_from_distance
  omega

lemma hexDigitVal_hexCharOf : ∀ d : Nat, d < 16 → hexDigitVal (hexCharOf d) = some d := by
  decide

lemma natToHexChars_length : ∀ (w v : Nat), (natToHexChars w v).length = w := by
  intro w
  induction w with
  | zero => intro v; rfl
  | succ k ih =>
    intro v
    simp [natToHexChars, ih]

lemma parseHexCore_natToHexChars :
    ∀ (w v : Nat), v < 16 ^ w → parseHexCore (natToHexChars w v) = some v := by
  intro w
  induction w with
  | zero =>
    intro v hv
    interval_cases v
    rfl
  | succ k ih =>
    intro v hv
    have hdiv : v / 16 < 16 ^ k := by
      rw [Nat.div_lt_iff_lt_mul (by norm_num)]
      calc v < 16 ^ (k + 1) := hv
        _ = 16 ^ k * 16 := by ring
    have hmod : v % 16 < 16 := Nat.mod_lt _ (by norm_num)
    unfold natToHexChars
    unfold parseHexCore at ih ⊢
    rw [List.foldl_append]
    rw [ih (v / 16) hdiv]
    simp only [List.foldl_cons, List.foldl_nil, hexDigitVal_hexCharOf (v % 16) hmod]
    simp only [Option.bind, Option.map]
    rw [Nat.div_add_mod]

lemma bitsToNat_concat (l : List Bool) (b : Bool) :
    bitsToNat (l ++ [b]) = 2 * bitsToNat l + b.toNat := by
  unfold bitsToNat
  rw [List.foldl_append]
  rfl

lemma bitsToNat_lt (l : List Bool) : bitsToNat l < 2 ^ l.length := by
  induction l using List.reverseRecOn with
  | nil => decide
  | append_singleton xs b ih =>
    rw [bitsToNat_concat]
    have hlen : (xs ++ [b]).length = xs.length + 1 := by simp
    rw [hlen]
    have hpow : 2 ^ (xs.length + 1) = 2 * 2 ^ xs.length := by ring
    rw [hpow]
    have hb : b.toNat ≤ 1 := Bool.toNat_le b
    omega

lemma natToBits_succ (w v : Nat) :
    natToBits (w + 1) v = natToBits w (v / 2) ++ [decide (v % 2 = 1)] := rfl

lemma natToBits_bitsToNat : ∀ l : List Bool, natToBits l.length (bitsToNat l) = l := by
  intro l
  induction l using List.reverseRecOn with
  | nil => rfl
  | append_singleton xs b ih =>
    have hlen : (xs ++ [b]).length = xs.length + 1 := by simp
    rw [bitsToNat_concat, hlen, natToBits_succ]
    have hdiv : (2 * bitsToNat xs + b.toNat) / 2 = bitsToNat xs := by
      cases b
      · show (2 * bitsToNat xs + 0) / 2 = bitsToNat xs
        omega
      · show (2 * bitsToNat xs + 1) / 2 = bitsToNat xs
        omega
    have hmod : decide ((2 * bitsToNat xs + b.toNat) % 2 = 1) = b := by
      cases b
      · have h0 : (2 * bitsToNat xs + Bool.toNat false) % 2 = 0 := by
          show (2 * bitsToNat xs + 0) % 2 = 0
          omega
        simp [h0]
      · rw [decide_eq_true_eq]
        show (2 * bitsToNat xs + 1) % 2 = 1
        omega
    rw [hdiv, hmod, ih]

lemma natSqrtLin_64 : natSqrtLin 64 = 8 := by decide

/-- Stability of `orderedInsert` under `scoreRel`, phrased through the
equal-score filter: inserting `x` puts it in front of exactly the
equal-score elements it is inserted before (which, in the insertion sort
below, all come later in the original list). -/
lemma filter_score_orderedInsert (s : Int) (x : Product × Int)
    (l : List (Product × Int)) :
    (List.orderedInsert scoreRel x l).filter (fun y => decide (y.2 = s)) =
      if x.2 = s then x :: l.filter (fun y => decide (y.2 = s))
      else l.filter (fun y => decide (y.2 = s)) := by
  induction l with
  | nil =>
    by_cases hx : x.2 = s
    · simp [hx]
    · simp [hx]
  | cons y ys ih =>
    by_cases hr : scoreRel x y
    · rw [List.orderedInsert_of_le scoreRel ys hr]
      by_cases hx : x.2 = s
      · simp [hx]
      · simp [hx]
    · have hstep : List.orderedInsert scoreRel x (y :: ys) =
          y :: List.orderedInsert scoreRel x ys := by
        simp [List.orderedInsert, hr]
      rw [hstep]
      by_cases hx : x.2 = s
      · have hy : ¬(y.2 = s) := by
          have hlt : x.2 < y.2 := by
            have := not_le.mp (fun h => hr h)
            exact this
          omega
        simp only [List.filter_cons, decide_eq_true_eq, if_neg hy, ih, if_pos hx,
          hx]
      · simp only [List.filter_cons, ih, if_neg hx]

/-- Insertion sort with `scoreRel` preserves the relative order (indeed the
exact sequence) of the elements of any one score class. -/
lemma filter_score_insertionSort (s : Int) (l : List (Product × Int)) :
    (List.insertionSort scoreRel l).filter (fun y => decide (y.2 = s)) =
      l.filter (fun y => decide (y.2 = s)) := by
  induction l with
  | nil => rfl
  | cons x xs ih =>
    show (List.orderedInsert scoreRel x (List.insertionSort scoreRel xs)).filter
        (fun y => decide (y.2 = s)) = _
    rw [filter_score_orderedInsert, ih]
    by_cases hx : x.2 = s
    · simp [hx]
    · simp [hx]

/-- Every score produced by `scoreItem` lies in `[0, 100]`. -/
lemma scoreItem_score_le_100 (qh : List Bool) (p : Product) (x : Product × Int)
    (h : scoreItem qh p = some x) : x.2 ≤ 100 := by
  unfold scoreItem at h
  split at h
  · exact Option.noConfusion h
  · split at h
    · exact Option.noConfusion h
    · rw [← (Option.some.injEq _ _).mp h]
      exact score_from_distance_le_100 _

/-- The slice `scored[:max_results]` always yields a sublist of its input. -/
lemma pySliceTo_sublist (k : Int) (l : List α) : List.Sublist (pySliceTo k l) l := by
  unfold pySliceTo
  split_ifs
  · exact List.take_sublist _ _
  · exact List.take_sublist _ _

/-- Every score in a successful `find_similar` result is at most 100. -/
lemma find_similar_score_le_100 (q : String) (cat : List Product) (mr : Int)
    (l : List (Product × Int)) (h : find_similar q cat mr = some l) :
    ∀ x ∈ l, x.2 ≤ 100 := by
  unfold find_similar at h
  cases hq : hex_to_hash q with
  | none => rw [hq] at h; contradiction
  | some qh =>
    rw [hq] at h
    have hl : l = pySliceTo mr (sortByScoreDesc (cat.filterMap (scoreItem qh))) := by
      exact (Option.some.injEq _ _).mp h |>.symm
    intro x hx
    rw [hl] at hx
    have hx2 : x ∈ sortByScoreDesc (cat.filterMap (scoreItem qh)) :=
      (pySliceTo_sublist _ _).subset hx
    have hx3 : x ∈ cat.filterMap (scoreItem qh) :=
      (List.perm_insertionSort scoreRel _).subset hx2
    rcases List.mem_filterMap.mp hx3 with ⟨p, _, hp⟩
    exact scoreItem_score_le_100 qh p x hp

/-- Round-trip of the fingerprint text codec on 64-bit fingerprints:
decoding the 16-character lowercase hex encoding recovers the bits. -/
lemma hex_to_hash_encodeHash (f : List Bool) (hf : f.length = 64) :
    hex_to_hash (encodeHash f) = some f := by
  have hv : bitsToNat f < 16 ^ 16 := by
    have h := bitsToNat_lt f
    rw [hf] at h
    calc bitsToNat f < 2 ^ 64 := h
      _ = 16 ^ 16 := by norm_num
  have h163 : (64 + 3) / 4 = 16 := by norm_num
  have hchars : encodeHash f = ⟨natToHexChars 16 (bitsToNat f)⟩ := by
    unfold encodeHash
    rw [hf, h163]
  have hlen : (natToHexChars 16 (bitsToNat f)).length = 16 := natToHexChars_length _ _
  have hne : (natToHexChars 16 (bitsToNat f)).isEmpty = false := by
    cases hcl : natToHexChars 16 (bitsToNat f) with
    | nil => rw [hcl] at hlen; simp at hlen
    | cons x xs => rfl
  have hpar : parseHexNat (natToHexChars 16 (bitsToNat f)) = some (bitsToNat f) := by
    unfold parseHexNat
    rw [hne]
    simp only [Bool.false_eq_true, if_false]
    exact parseHexCore_natToHexChars 16 (bitsToNat f) hv
  rw [hchars]
  show hexToHashChars (natToHexChars 16 (bitsToNat f)) = some f
  unfold hexToHashChars
  rw [hlen]
  rw [show (16 : Nat) * 4 = 64 from by norm_num, natSqrtLin_64]
  rw [if_pos (by norm_num : (8 : Nat) * 8 = 64)]
  rw [hpar]
  show some (natToBits (8 * 8) (bitsToNat f)) = some f
  rw [show (8 * 8 : Nat) = f.length from by rw [hf], natToBits_bitsToNat]

/-- C1 counterexample: the claim quantifies over every `maxResults`, but for
a negative `maxResults` the Python slice `scored[:max_results]` does not
bound the length by `maxResults`: with an empty catalog and
`maxResults = -1` the call returns a list of length 0, and `0 ≤ -1` is
false. -/
theorem claim_c1_length_cex :
    find_similar "0000000000000000" [] (-1) = some [] ∧
      ¬((([] : List (Product × Int)).length : Int) ≤ -1) := by
  exact ⟨by decide, by decide⟩

/-- C1 (amended): for every `maxResults ≥ 0`, a successful `find_similar`
call returns at most `maxResults` items, sorted by score descending, and
within each score class the items appear in the same relative order as in
the scored scan of the input catalog (stable tie-break by catalog order). -/
theorem claim_c1_ranked_output (q : String) (qh : List Bool) (cat : List Product)
    (mr : Int) (res : List (Product × Int))
    (hq : hex_to_hash q = some qh)
    (hres : find_similar q cat mr = some res)
    (hmr : 0 ≤ mr) :
    (res.length : Int) ≤ mr ∧
      res.Pairwise (fun a b => b.2 ≤ a.2) ∧
      ∀ s : Int,
        List.Sublist (res.filter (fun y => decide (y.2 = s)))
          ((cat.filterMap (scoreItem qh)).filter (fun y => decide (y.2 = s))) := by
  have hres2 :
      some (pySliceTo mr (sortByScoreDesc (cat.filterMap (scoreItem qh)))) = some res := by
    rw [← hres]; unfold find_similar; rw [hq]
  have htake : res = (sortByScoreDesc (cat.filterMap (scoreItem qh))).take mr.toNat := by
    rw [← (Option.some.injEq _ _).mp hres2]
    unfold pySliceTo
    rw [if_pos hmr]
  refine ⟨?_, ?_, ?_⟩
  · have h1 : res.length ≤ mr.toNat := by
      rw [htake, List.length_take]
      omega
    omega
  · rw [htake]
    exact List.Pairwise.sublist (List.take_sublist _ _)
      (List.sorted_insertionSort scoreRel _)
  · intro s
    have h2 := List.Sublist.filter (fun y => decide (y.2 = s))
      (List.take_sublist mr.toNat (sortByScoreDesc (cat.filterMap (scoreItem qh))))
    rw [← htake] at h2
    have h3 : (sortByScoreDesc (cat.filterMap (scoreItem qh))).filter
          (fun y => decide (y.2 = s)) =
        (cat.filterMap (scoreItem qh)).filter (fun y => decide (y.2 = s)) :=
      filter_score_insertionSort s _
    rw [h3] at h2
    exact h2

theorem claim_c1_ranked_output_witness :
    (hex_to_hash "0000000000000000" = some (List.replicate 64 false) ∧
      find_similar "0000000000000000" [prodZero, prodOnes] 2 =
        some [(prodZero, 100), (prodOnes, 0)] ∧ (0 : Int) ≤ 2) ∧
      (([(prodZero, 100), (prodOnes, 0)] : List (Product × Int)).length : Int) ≤ 2 :=
  ⟨⟨by decide, by decide, by decide⟩,
    (claim_c1_ranked_output "0000000000000000" (List.replicate 64 false)
      [prodZero, prodOnes] 2 [(prodZero, 100), (prodOnes, 0)]
      (by decide) (by decide) (by decide)).1⟩

/-- C2: on the catalog whose item 1 stores the all-zero fingerprint and
item 2 the all-one fingerprint, querying with the all-zero fingerprint and
`maxResults = 2` returns exactly item 1 with score 100 followed by item 2
with score 0. -/
theorem claim_c2_scenario :
    find_similar "0000000000000000" [prodZero, prodOnes] 2 =
      some [(prodZero, 100), (prodOnes, 0)] ∧
    prodZero.id = 1 ∧ prodOnes.id = 2 :=
  ⟨by decide, rfl, rfl⟩

/-- C3 counterexample: at distance 24 the code returns 62 (Python's `round`
sends the exact half 62.5 to the even neighbour) while the spec formula
`round(100 * (1 - d / 64))`, read with conventional rounding (halves up),
gives 63. -/
theorem claim_c3_rounding_cex :
    score_from_distance 24 = 62 ∧ scoreSpecRoundHalfUp 24 = 63 :=
  ⟨by decide, specHalfUp_at24⟩

/-- C3 (amended): for every distance `0 ≤ d ≤ 64` the score equals
round-half-to-even of `100 * (1 - d / 64)` clamped to `[0, 100]`; in
particular distance 0 yields 100 and distance 64 yields 0. -/
theorem claim_c3_score_formula (d : Int) (_h0 : 0 ≤ d) (_h64 : d ≤ 64) :
    score_from_distance d = scoreSpecRoundHalfEven d ∧
      score_from_distance 0 = 100 ∧ score_from_distance 64 = 0 :=
  ⟨score_eq_specHalfEven d, by decide, by decide⟩

theorem claim_c3_score_formula_witness :
    ((0 : Int) ≤ 24 ∧ (24 : Int) ≤ 64) ∧
      score_from_distance 24 = scoreSpecRoundHalfEven 24 :=
  ⟨⟨by decide, by decide⟩, (claim_c3_score_formula 24 (by decide) (by decide)).1⟩

/-- C4: a catalog entry whose stored fingerprint fails to decode (or whose
width mismatches the query) is skipped: the result equals the result on the
catalog with that entry removed, and the call still succeeds. -/
theorem claim_c4_skip_corrupt (q : String) (qh : List Bool)
    (cat1 cat2 : List Product) (bad : Product) (mr : Int)
    (hq : hex_to_hash q = some qh)
    (hbad : scoreItem qh bad = none) :
    find_similar q (cat1 ++ bad :: cat2) mr = find_similar q (cat1 ++ cat2) mr ∧
      (find_similar q (cat1 ++ bad :: cat2) mr).isSome = true := by
  unfold find_similar
  rw [hq]
  refine ⟨?_, rfl⟩
  simp only [List.filterMap_append, List.filterMap_cons, hbad]

theorem claim_c4_skip_corrupt_witness :
    (hex_to_hash "0000000000000000" = some (List.replicate 64 false) ∧
      scoreItem (List.replicate 64 false) prodBad = none) ∧
      find_similar "0000000000000000" ([prodZero] ++ prodBad :: [prodOnes]) 24 =
        find_similar "0000000000000000" ([prodZero] ++ [prodOnes]) 24 :=
  ⟨⟨by decide, by decide⟩,
    (claim_c4_skip_corrupt "0000000000000000" (List.replicate 64 false)
      [prodZero] [prodOnes] prodBad 24 (by decide) (by decide)).1⟩

/-- C5: `find_similar` takes no `minScore` and the handler applies the
threshold as a separate filter on the ranked top-K it returns; on the C2
scenario with `minScore = 80` only item 1 survives. -/
theorem claim_c5_threshold_after_ranking :
    (∀ (min_score max_results : Int) (q : String) (cat : List Product),
        search_results min_score max_results q cat =
          (find_similar q cat max_results).map
            (List.filter fun x => decide (min_score ≤ x.2))) ∧
      search_results 80 2 "0000000000000000" [prodZero, prodOnes] =
        some [(prodZero, 100)] :=
  ⟨fun _ _ _ _ => rfl, by decide⟩

/-- C6: the distance-to-score transform is monotonically non-increasing,
and distance 64 maps to score 0. -/
theorem claim_c6_monotone (d1 d2 : Int) (h : d1 ≤ d2) :
    score_from_distance d2 ≤ score_from_distance d1 ∧
      score_from_distance 64 = 0 :=
  ⟨score_from_distance_antitone h, by decide⟩

theorem claim_c6_monotone_witness :
    ((3 : Int) ≤ 5) ∧ score_from_distance 5 ≤ score_from_distance 3 :=
  ⟨by decide, (claim_c6_monotone 3 5 (by decide)).1⟩

/-- C7: decoding the 16-character lowercase hex encoding of any 64-bit
fingerprint yields the fingerprint back. -/
theorem claim_c7_roundtrip (f : List Bool) (hf : f.length = 64) :
    hex_to_hash (encodeHash f) = some f ∧ (encodeHash f).length = 16 := by
  refine ⟨hex_to_hash_encodeHash f hf, ?_⟩
  unfold encodeHash
  rw [hf, String.length_mk, natToHexChars_length]

theorem claim_c7_roundtrip_witness :
    (List.replicate 64 false).length = 64 ∧
      hex_to_hash (encodeHash (List.replicate 64 false)) =
        some (List.replicate 64 false) :=
  ⟨by decide, (claim_c7_roundtrip (List.replicate 64 false) (by decide)).1⟩

/-- C8: when the single fetch (with the default timeout of 8) returns a
non-success HTTP status (4xx/5xx raised by `raise_for_status`) or raises a
network error, `compute_phash_from_url` produces no fingerprint and does
not crash: it returns `None`. -/
theorem claim_c8_fetch_failure {β γ : Type} (fetchFn : String → Int → HttpResult β)
    (openImage : β → Option γ) (phashPil : γ → List Bool) (url : String)
    (h : fetchFn url 8 = HttpResult.failure ∨
      ∃ status body, fetchFn url 8 = HttpResult.response status body ∧
        400 ≤ status ∧ status < 600) :
    compute_phash_from_url fetchFn openImage phashPil url 8 = none := by
  unfold compute_phash_from_url
  rcases h with h | ⟨status, body, h, h4, h6⟩
  · rw [h]
  · simp only [h]
    rw [if_pos ⟨h4, h6⟩]

theorem claim_c8_fetch_failure_witness :
    ((fun (_ : String) (_ : Int) => HttpResult.response 404 ()) "http://img" 8 =
        HttpResult.response 404 () ∧ 400 ≤ 404 ∧ 404 < 600) ∧
      compute_phash_from_url (fun (_ : String) (_ : Int) => HttpResult.response 404 ())
        (fun (_ : Unit) => some ()) (fun (_ : Unit) => List.replicate 64 false)
        "http://img" 8 = none :=
  ⟨⟨rfl, by decide, by decide⟩,
    claim_c8_fetch_failure _ _ _ _ (Or.inr ⟨404, (), rfl, by decide, by decide⟩)⟩

/-- C9 counterexample: an out-of-range `minScore = 150` is neither rejected
(the call returns a result) nor clamped to 100 (which would keep the
perfect match): the raw value flows into the threshold filter and empties
the result. -/
theorem claim_c9_validation_cex :
    search_results 150 2 "0000000000000000" [prodZero, prodOnes] = some [] ∧
      search_results 100 2 "0000000000000000" [prodZero, prodOnes] =
        some [(prodZero, 100)] :=
  ⟨by decide, by decide⟩

/-- C9 (amended): no validation or clamping occurs; the raw `minScore` is
the floor actually enforced on the results, so a `minScore` above 100
eliminates every result (all scores are at most 100), and the raw
`maxResults` reaches the slice unchecked. -/
theorem claim_c9_raw_parameters (min_score max_results : Int) (q : String)
    (cat : List Product) (res : List (Product × Int))
    (hres : search_results min_score max_results q cat = some res) :
    (∀ x ∈ res, min_score ≤ x.2) ∧ (100 < min_score → res = []) := by
  unfold search_results at hres
  cases hfs : find_similar q cat max_results with
  | none => rw [hfs] at hres; exact Option.noConfusion hres
  | some l =>
    rw [hfs] at hres
    have hres2 : res = l.filter (fun x => decide (min_score ≤ x.2)) :=
      ((Option.some.injEq _ _).mp hres).symm
    constructor
    · intro x hx
      rw [hres2] at hx
      exact of_decide_eq_true (List.mem_filter.mp hx).2
    · intro hms
      rw [hres2, List.filter_eq_nil_iff]
      intro a ha
      have hle := find_similar_score_le_100 q cat max_results l hfs a ha
      simp only [decide_eq_true_eq]
      omega

theorem claim_c9_raw_parameters_witness :
    search_results 150 2 "0000000000000000" [prodZero, prodOnes] = some [] ∧
      (100 < (150 : Int) → ([] : List (Product × Int)) = []) :=
  ⟨by decide,
    (claim_c9_raw_parameters 150 2 "0000000000000000" [prodZero, prodOnes] []
      (by decide)).2⟩

/-- C10: a malformed query fingerprint is decoded before and outside the
per-item error isolation, so the whole call fails (propagates, modelled as
`none`) rather than skipping or returning an empty or partial list. -/
theorem claim_c10_malformed_query (q : String) (cat : List Product) (mr : Int)
    (hq : hex_to_hash q = none) :
    find_similar q cat mr = none := by
  unfold find_similar
  rw [hq]

theorem claim_c10_malformed_query_witness :
    hex_to_hash "zzzzzzzzzzzzzzzz" = none ∧
      find_similar "zzzzzzzzzzzzzzzz" [prodZero, prodOnes] 24 = none :=
  ⟨by decide, claim_c10_malformed_query "zzzzzzzzzzzzzzzz" [prodZero, prodOnes] 24
    (by decide)⟩
